import Mathlib

/-!
Verification development for `claude-skills-daemon.py`.

The daemon watches a folder, matches filenames to configured skills by glob
pattern, waits for a file's size to stabilize, reads it with retry, appends
the content (wrapped in an envelope) to a Google Doc, and archives the file.

Shallow embedding conventions:
* External effects (`os.path.getmtime`, `os.path.getsize`, `open`/`read`,
  `os.chmod`, service initialization, the Docs API, `os.makedirs`,
  `os.rename`, `os.path.expanduser`) are modelled as environment-supplied
  outcomes (`Except Err _` or outcome-valued functions); a Python exception
  is the `.error` case.
* `time.sleep` calls are recorded in an explicit trace of rational durations.
* Python floats used here (0.1, 1.5, 2.0, 0.5) are exactly representable in
  binary, and all products computed by the code stay exact, so `ℚ` models
  them faithfully.
* Python's `str` is `String`, dicts of skills are association lists in
  insertion order (Python dict iteration order).
-/

/-- Opaque tag identifying a Python exception instance. -/
abbrev Err := Nat

/-! ### Readiness detector: `SkillsFileHandler._wait_for_file_ready` -/

/-- Result of one `os.path.getsize` call inside the readiness loop:
either a size in bytes, or an `OSError`/`IOError` (caught by the loop). -/
inductive SizeObs where
  | ok (n : Nat) : SizeObs
  | err : SizeObs
deriving DecidableEq

/-- The `while retry_count < max_retries` loop of `_wait_for_file_ready`.
`k` is the current attempt index (so `obs k` is the result of the next
`os.path.getsize`), `fuel` the remaining retries, `lastSize` the Python
`last_size` variable (initially `-1`), `waitTime` the Python `wait_time`
variable (initially `0.1`).  Returns the Boolean result together with the
trace of `time.sleep` durations performed, in order.  On a successful size
read that is not yet stable the code records the size, sleeps, and applies
`wait_time = min(wait_time * 1.5, 2.0)`; on an `OSError`/`IOError` it sleeps
the *current* `wait_time` without updating it. -/
def waitLoop (obs : Nat → SizeObs) : Nat → Nat → Int → ℚ → Bool × List ℚ
  | _, 0, _, _ => (false, [])
  | k, fuel+1, lastSize, waitTime =>
    match obs k with
    | .ok n =>
      if (n : Int) = lastSize ∧ 0 < n then (true, [])
      else
        ((waitLoop obs (k+1) fuel (n : Int) (min (waitTime * (3/2)) 2)).1,
          waitTime :: (waitLoop obs (k+1) fuel (n : Int) (min (waitTime * (3/2)) 2)).2)
    | .err =>
      ((waitLoop obs (k+1) fuel lastSize waitTime).1,
        waitTime :: (waitLoop obs (k+1) fuel lastSize waitTime).2)

/-- `_wait_for_file_ready(filepath, max_retries)`: returns `False` at once if
the file does not exist (`exists0 = false`), otherwise runs the size-stability
loop starting from `last_size = -1`, `wait_time = 0.1`.  The second component
is the trace of sleep durations. -/
def wait_for_file_ready_run (exists0 : Bool) (obs : Nat → SizeObs)
    (maxRetries : Nat) : Bool × List ℚ :=
  if exists0 then waitLoop obs 0 maxRetries (-1) (1/10) else (false, [])

/-- The Boolean result of `_wait_for_file_ready`. -/
def wait_for_file_ready (exists0 : Bool) (obs : Nat → SizeObs)
    (maxRetries : Nat) : Bool :=
  (wait_for_file_ready_run exists0 obs maxRetries).1

/-- The sizes successfully observed in attempts `k, k+1, …` over `fuel`
attempts (failed `getsize` calls contribute nothing). -/
def okSizes (obs : Nat → SizeObs) : Nat → Nat → List Nat
  | _, 0 => []
  | k, fuel+1 =>
    match obs k with
    | .ok n => n :: okSizes obs (k+1) fuel
    | .err => okSizes obs (k+1) fuel

/-- Modelled from the spec: a list of size observations contains two
consecutive observations that are equal and strictly positive. -/
def hasStablePair : List Nat → Bool
  | a :: b :: rest => if a = b ∧ 0 < a then true else hasStablePair (b :: rest)
  | _ => false

/-- Number of attempts among `k, …, k+i-1` whose size read succeeded. -/
def okCount (obs : Nat → SizeObs) : Nat → Nat → Nat
  | _, 0 => 0
  | k, i+1 => (match obs k with | .ok _ => 1 | .err => 0) + okCount obs (k+1) i

/-! ### File reader: `SkillsFileHandler._read_file_with_retry` -/

/-- Result of one `open(filepath).read()` attempt: the content, a
`PermissionError`, or any other exception. -/
inductive ReadOutcome where
  | ok (s : String) : ReadOutcome
  | permDenied (e : Err) : ReadOutcome
  | otherErr (e : Err) : ReadOutcome

/-- `true` iff the attempt raised a `PermissionError`. -/
def ReadOutcome.isPerm : ReadOutcome → Bool
  | .permDenied _ => true
  | _ => false

/-- How `_read_file_with_retry` terminates: with content, by falling off the
`for` loop (`return None`; dead code for `max_retries ≥ 1`), or by re-raising
an exception. -/
inductive ReadResult where
  | content (s : String) : ReadResult
  | noContent : ReadResult
  | raised (e : Err) : ReadResult
deriving DecidableEq

/-- The `for attempt in range(max_retries)` loop of `_read_file_with_retry`:
`k` is the current `attempt`, `fuel` the remaining iterations.  A
`PermissionError` on the last attempt (`attempt == max_retries - 1`) is
re-raised; earlier ones sleep `0.5 * (attempt + 1)` seconds and retry.  Any
other exception is re-raised at once.  Sleep durations are traced. -/
def readLoop (att : Nat → ReadOutcome) : Nat → Nat → ReadResult × List ℚ
  | _, 0 => (.noContent, [])
  | k, fuel+1 =>
    match att k with
    | .ok s => (.content s, [])
    | .permDenied e =>
      if fuel = 0 then (.raised e, [])
      else
        ((readLoop att (k+1) fuel).1, ((k : ℚ) + 1) / 2 :: (readLoop att (k+1) fuel).2)
    | .otherErr e => (.raised e, [])

/-- `_read_file_with_retry(filepath)` with the default `max_retries = 5`. -/
def read_file_with_retry (att : Nat → ReadOutcome) : ReadResult × List ℚ :=
  readLoop att 0 5

/-! ### `fnmatch.fnmatch` (glob matching; `os.path.normcase` is the identity
on POSIX, so matching is case-sensitive) -/

/-- Scan for the `]` closing a character class; returns the class body and
the remainder of the pattern, or `none` if the class is unterminated. -/
def scanClass : List Char → List Char → Option (List Char × List Char)
  | _, [] => none
  | acc, ']' :: rest => some (acc.reverse, rest)
  | acc, c :: rest => scanClass (c :: acc) rest

/-- Split a character class after its opening `[`: a leading `!` negates,
and a `]` right after `[` (or after `[!`) is a literal member.  Returns
(negated, member chars, rest of pattern), or `none` if unterminated (in
which case `[` matches literally, as in `fnmatch.translate`). -/
def splitClass (s : List Char) : Option (Bool × List Char × List Char) :=
  match s with
  | '!' :: ']' :: t => (scanClass [']'] t).map (fun p => (true, p.1, p.2))
  | '!' :: t => (scanClass [] t).map (fun p => (true, p.1, p.2))
  | ']' :: t => (scanClass [']'] t).map (fun p => (false, p.1, p.2))
  | t => (scanClass [] t).map (fun p => (false, p.1, p.2))

/-- Parse class members into ranges (`a-b`) and singletons (`c` as `c-c`);
a hyphen at the start or end of the body is a literal member. -/
def classItems : List Char → List (Char × Char)
  | a :: '-' :: b :: rest => (a, b) :: classItems rest
  | a :: rest => (a, a) :: classItems rest
  | [] => []

/-- Does character `c` match the class with the given negation flag and
body?  A reversed range (`lo > hi`) matches nothing. -/
def classMatch (neg : Bool) (body : List Char) (c : Char) : Bool :=
  let mem := (classItems body).any (fun p => decide (p.1 ≤ c ∧ c ≤ p.2))
  if neg then !mem else mem

/-- Glob matching of pattern against string, fuel-indexed so the definition
is structural (and hence evaluable by `decide`).  `*` matches any sequence,
`?` any single character, `[...]` a character class.  Each recursive call
shrinks `pat.length + s.length`, so fuel `pat.length + s.length + 1` never
runs out. -/
def globMatchF : Nat → List Char → List Char → Bool
  | 0, _, _ => false
  | fuel+1, pat, s =>
    match pat, s with
    | [], t => t.isEmpty
    | '*' :: ps, t =>
      globMatchF fuel ps t ||
        (match t with
         | [] => false
         | _ :: t2 => globMatchF fuel ('*' :: ps) t2)
    | '?' :: ps, t =>
      (match t with
       | [] => false
       | _ :: t2 => globMatchF fuel ps t2)
    | '[' :: ps, t =>
      (match splitClass ps with
       | none =>
         (match t with
          | [] => false
          | c :: t2 => if c = '[' then globMatchF fuel ps t2 else false)
       | some (neg, body, rest) =>
         (match t with
          | [] => false
          | c :: t2 => if classMatch neg body c then globMatchF fuel rest t2 else false))
    | p :: ps, t =>
      (match t with
       | [] => false
       | c :: t2 => if p = c then globMatchF fuel ps t2 else false)

/-- Glob matching with sufficient fuel. -/
def globMatch (pat s : List Char) : Bool :=
  globMatchF (pat.length + s.length + 1) pat s

/-- `fnmatch.fnmatch(name, pat)` on POSIX. -/
def fnmatch (name pat : String) : Bool :=
  globMatch pat.data name.data

/-! ### POSIX path helpers (`os.path.basename`, `os.path.join`,
`os.path.normpath`).  These are written over `List Char` (structural
recursion) so that concrete runs reduce in the kernel. -/

/-- `str.split('/')` on the character list of a path. -/
def splitSlash : List Char → List (List Char)
  | [] => [[]]
  | c :: rest =>
    if c = '/' then [] :: splitSlash rest
    else
      match splitSlash rest with
      | h :: t => (c :: h) :: t
      | [] => [[c]]

/-- Number of leading `/` characters. -/
def leadingSlashes : List Char → Nat
  | '/' :: rest => leadingSlashes rest + 1
  | _ => 0

/-- `'/'.join(comps)` on character lists. -/
def joinComps : List (List Char) → List Char
  | [] => []
  | [x] => x
  | x :: rest => x ++ '/' :: joinComps rest

/-- `os.path.basename`: everything after the last `/`. -/
def basename (p : String) : String :=
  String.mk (((splitSlash p.data).getLast?).getD [])

/-- `posixpath.join` restricted to two arguments, as used by the archiver. -/
def joinPath (a b : String) : String :=
  if leadingSlashes b.data ≠ 0 then b
  else if a = "" ∨ a.data.getLast? = some '/' then a ++ b
  else a ++ "/" ++ b

/-- `posixpath.normpath`: collapse `//`, `.` and `..` components (a leading
`//` is preserved as exactly two slashes; three or more collapse to one). -/
def normpath (p : String) : String :=
  if p = "" then "."
  else
    let initialSlashes : Nat :=
      match leadingSlashes p.data with
      | 0 => 0
      | 2 => 2
      | _ => 1
    let comps := splitSlash p.data
    let newComps := List.foldl
      (fun (acc : List (List Char)) comp =>
        if comp = [] ∨ comp = ['.'] then acc
        else if comp ≠ ['.', '.'] ∨ (initialSlashes = 0 ∧ acc = []) ∨
            (acc ≠ [] ∧ acc.getLast? = some ['.', '.']) then acc ++ [comp]
        else acc.dropLast)
      [] comps
    let out := List.replicate initialSlashes '/' ++ joinComps newComps
    if out = [] then "." else String.mk out

/-! ### Configuration and skill matching -/

/-- One entry of `config['skills']`.  Per the configuration schema, `doc_id`
is required; `pattern` and `skill_name` are accessed with `.get` and may be
absent. -/
structure SkillConfig where
  pattern : Option String
  doc_id : String
  skill_name : Option String
deriving DecidableEq

/-- The dict built by `_match_file_to_skill` on a match:
`{'name': …, 'doc_id': …, 'skill_name': config.get('skill_name', name)}`. -/
structure MatchedSkill where
  name : String
  doc_id : String
  skill_name : String
deriving DecidableEq

/-- The parts of the loaded configuration used by the per-file pipeline.
Skills are kept in dict insertion order. -/
structure Config where
  skills : List (String × SkillConfig)
  archive_folder : Option String

/-- `SkillsFileHandler._matches_any_pattern`: Python's
`if pattern and fnmatch.fnmatch(filename, pattern)` — a missing or empty
pattern is falsy and skipped. -/
def _matches_any_pattern (skills : List (String × SkillConfig))
    (filename : String) : Bool :=
  match skills with
  | [] => false
  | (_, sc) :: rest =>
    (match sc.pattern with
     | some pat => pat ≠ "" && fnmatch filename pat
     | none => false) || _matches_any_pattern rest filename

/-- `SkillsFileHandler._match_file_to_skill`: first skill (in dict order)
whose pattern is truthy and matches the filename. -/
def _match_file_to_skill (skills : List (String × SkillConfig))
    (filename : String) : Option MatchedSkill :=
  match skills with
  | [] => none
  | (skillName, sc) :: rest =>
    match sc.pattern with
    | some pat =>
      if pat ≠ "" ∧ fnmatch filename pat = true then
        some ⟨skillName, sc.doc_id, sc.skill_name.getD skillName⟩
      else _match_file_to_skill rest filename
    | none => _match_file_to_skill rest filename

/-- Spec-side predicate for the matcher theorem: the guard "this skill entry
has a (truthy) pattern that glob-matches the filename". -/
def skillMatches (filename : String) (entry : String × SkillConfig) : Bool :=
  match entry.2.pattern with
  | some pat => pat ≠ "" && fnmatch filename pat
  | none => false

/-- The dict `_match_file_to_skill` would build from a matching entry. -/
def toMatched (entry : String × SkillConfig) : MatchedSkill :=
  ⟨entry.1, entry.2.doc_id, entry.2.skill_name.getD entry.1⟩

/-! ### Destination appender: `SkillsFileHandler._append_to_doc` -/

/-- Outcomes of the two Google Docs API calls: `documents().get` yields the
`endIndex` of the last `body.content` element; `batchUpdate` either succeeds
or raises. -/
structure GEnv where
  getDoc : Except Err Int
  batchUpdate : Except Err Unit

/-- The single `insertText` request issued by `_append_to_doc`. -/
structure InsertReq where
  doc_id : String
  index : Int
  text : String
deriving DecidableEq

/-- `'=' * 80`. -/
def eq80 : String := String.mk (List.replicate 80 '=')

/-- `separator = f"\n\n{'=' * 80}\n"`. -/
def separatorStr : String := "\n\n" ++ eq80 ++ "\n"

/-- `footer = f"\n{'=' * 80}\n\n"`. -/
def footerStr : String := "\n" ++ eq80 ++ "\n\n"

/-- `header = f"Added by {skill_name} daemon at {timestamp}\n"`. -/
def headerStr (skillName timestamp : String) : String :=
  "Added by " ++ skillName ++ " daemon at " ++ timestamp ++ "\n"

/-- `full_content = separator + header + separator + content + footer`. -/
def fullContentStr (content skillName timestamp : String) : String :=
  separatorStr ++ headerStr skillName timestamp ++ separatorStr ++ content ++ footerStr

/-- `_append_to_doc(doc_id, content, skill_name)`: query the document for
`end_index = body.content[-1].endIndex - 1`, build the envelope with the
current timestamp, and issue one `insertText` at that index.  Failures of
either API call are logged and re-raised. -/
def _append_to_doc (g : GEnv) (timestamp doc_id content skillName : String) :
    Except Err InsertReq :=
  match g.getDoc with
  | .error e => .error e
  | .ok lastEndIndex =>
    let endIndex := lastEndIndex - 1
    let full := fullContentStr content skillName timestamp
    match g.batchUpdate with
    | .error e => .error e
    | .ok _ => .ok ⟨doc_id, endIndex, full⟩

/-! ### Archiver: `SkillsFileHandler._archive_file` -/

/-- Filesystem outcomes used by the archiver. -/
structure AEnv where
  expanduser : String → String
  makedirs : Except Err Unit
  rename : Except Err Unit

/-- What the archiver did (all within its catch-all `try`). -/
inductive ArchiveLog where
  | movedTo (dest : String) : ArchiveLog
  | stayedInPlace : ArchiveLog
  | failureLogged (e : Err) : ArchiveLog
deriving DecidableEq

/-- The body of `_archive_file`'s `try` block: resolve the archive folder
(default `'~/Downloads'`), `os.makedirs(..., exist_ok=True)`, and move the
file by base name — unless the normalized archive path equals the normalized
source path, in which case the file stays in place and this is only logged. -/
def archiveBody (a : AEnv) (cfg : Config) (filepath : String) :
    Except Err ArchiveLog :=
  match a.makedirs with
  | .error e => .error e
  | .ok _ =>
    if normpath (joinPath (a.expanduser (cfg.archive_folder.getD "~/Downloads"))
          (basename filepath)) = normpath filepath then .ok .stayedInPlace
    else
      match a.rename with
      | .error e => .error e
      | .ok _ =>
        .ok (.movedTo (joinPath (a.expanduser (cfg.archive_folder.getD "~/Downloads"))
          (basename filepath)))

/-- `_archive_file`: the body runs under `try: … except Exception:`, so any
failure is converted into a logged outcome instead of propagating. -/
def _archive_file (a : AEnv) (cfg : Config) (filepath : String) :
    Except Err ArchiveLog :=
  match archiveBody a cfg filepath with
  | .ok l => .ok l
  | .error e => .ok (.failureLogged e)

/-! ### Per-file pipeline: `SkillsFileHandler.process_file` -/

/-- The handler's mutable state: `self.last_processed` (file identities as
(path, mtime) pairs — the code's `f"{filepath}:{mtime}"` keys are in
bijection with these pairs) and whether `self.docs_service` is set. -/
structure HState where
  processed : List (String × Nat)
  serviceInit : Bool
deriving DecidableEq

/-- How one `process_file` call terminates.  `raised` means an exception
escaped `process_file` (not caught by its `try`); `caught` means the
top-level `except Exception` caught and logged it; the others are the
explicit `return` paths. -/
inductive Outcome where
  | raised (e : Err) : Outcome
  | skippedDuplicate : Outcome
  | noMatch : Outcome
  | readEmpty : Outcome
  | caught (e : Err) : Outcome
  | success : Outcome
deriving DecidableEq

/-- Did an exception escape `process_file`? -/
def Outcome.isRaised : Outcome → Bool
  | .raised _ => true
  | _ => false

/-- Environment of one `process_file` call: outcomes of every external
effect it (transitively) performs. -/
structure PEnv where
  getmtime : Except Err Nat
  readAtt : Nat → ReadOutcome
  chmod : Except Err Unit
  initService : Except Err Unit
  g : GEnv
  timestamp : String
  arch : AEnv

/-- Result of one `process_file` call: the new handler state, how the call
terminated, and the `insertText` request if an append was completed. -/
structure PFResult where
  state : HState
  outcome : Outcome
  insert : Option InsertReq
deriving DecidableEq

/-- `SkillsFileHandler.process_file`.  Note two source facts this embedding
preserves: (1) `file_id = f"{filepath}:{os.path.getmtime(filepath)}"` is
computed *before* the `try` block, so a failing `getmtime` escapes the
function (`Outcome.raised`); (2) the append passes `skill_config['name']`
(the skill's key) as the display name, not `skill_config['skill_name']`.
The inner `try` around `os.chmod` swallows its failure (`env.chmod` is
therefore never consulted for control flow), and `self.last_processed.add`
runs only after `_append_to_doc` returns successfully. -/
def process_file (cfg : Config) (st : HState) (env : PEnv) (filepath : String) :
    PFResult :=
  match env.getmtime with
  | .error e => ⟨st, .raised e, none⟩
  | .ok mtime =>
    if (filepath, mtime) ∈ st.processed then ⟨st, .skippedDuplicate, none⟩
    else
      match _match_file_to_skill cfg.skills (basename filepath) with
      | none => ⟨st, .noMatch, none⟩
      | some sk =>
        match (read_file_with_retry env.readAtt).1 with
        | .raised e => ⟨st, .caught e, none⟩
        | .noContent => ⟨st, .readEmpty, none⟩
        | .content c =>
          if c = "" then ⟨st, .readEmpty, none⟩
          else
            match (if st.serviceInit then Except.ok () else env.initService) with
            | .error e => ⟨st, .caught e, none⟩
            | .ok _ =>
              match _append_to_doc env.g env.timestamp sk.doc_id c sk.name with
              | .error e => ⟨⟨st.processed, true⟩, .caught e, none⟩
              | .ok req =>
                match _archive_file env.arch cfg filepath with
                | .ok _ => ⟨⟨(filepath, mtime) :: st.processed, true⟩, .success, some req⟩
                | .error e => ⟨⟨(filepath, mtime) :: st.processed, true⟩, .caught e, some req⟩

/-! ### Concrete instances used by witnesses and counterexamples -/

/-- A single-skill configuration whose `skill_name` (display name) differs
from the skill's key name. -/
def cfgNotes : Config :=
  ⟨[("notes", ⟨some "notes-*.md", "D1", some "Weekly Notes"⟩)], some "/archive"⟩

/-- An environment in which every external effect succeeds. -/
def envAllOk : PEnv :=
  ⟨.ok 5, fun _ => .ok "Hello", .ok (), .ok (), ⟨.ok 10, .ok ()⟩,
   "2026-01-01 00:00:00", ⟨fun s => s, .ok (), .ok ()⟩⟩

/-- Same environment but `os.path.getmtime` raises. -/
def envMtimeFails : PEnv :=
  ⟨.error 7, fun _ => .ok "Hello", .ok (), .ok (), ⟨.ok 10, .ok ()⟩,
   "2026-01-01 00:00:00", ⟨fun s => s, .ok (), .ok ()⟩⟩

/-- Size observations that always fail (`OSError` on every `getsize`). -/
def errObs : Nat → SizeObs := fun _ => SizeObs.err

/-- Archive environment with identity `expanduser` and succeeding calls. -/
def aEnvId : AEnv := ⟨fun s => s, .ok (), .ok ()⟩

/-- Configuration whose archive folder is the watch folder itself. -/
def cfgSelf : Config := ⟨[], some "/w"⟩

/-- The (capped) wait interval after `s` successful-size-read retries. -/
def waitQ (s : Nat) : ℚ := min ((1/10 : ℚ) * (3/2) ^ s) 2

/-! ### Helper lemmas -/

lemma waitLoop_fst_nat (obs : Nat → SizeObs) :
    ∀ fuel k (a : Nat) (w : ℚ),
      (waitLoop obs k fuel (a : Int) w).1 = hasStablePair (a :: okSizes obs k fuel) := by
  intro fuel
  induction fuel with
  | zero => intro k a w; simp [waitLoop, okSizes, hasStablePair]
  | succ fuel ih =>
    intro k a w
    rw [waitLoop, okSizes]
    cases hobs : obs k with
    | ok n =>
      dsimp only
      by_cases hc : (n : Int) = (a : Int) ∧ 0 < n
      · have hna : n = a := by exact_mod_cast hc.1
        subst hna
        simp [hc, hasStablePair, hc.2]
      · have hc' : ¬ (a = n ∧ 0 < a) := by
          rintro ⟨rfl, hpos⟩
          exact hc ⟨rfl, hpos⟩
        rw [if_neg hc]
        simp only [hasStablePair, if_neg hc']
        exact ih (k+1) n _
    | err =>
      dsimp only
      exact ih (k+1) a w

lemma waitLoop_fst_init (obs : Nat → SizeObs) :
    ∀ fuel k (w : ℚ),
      (waitLoop obs k fuel (-1) w).1 = hasStablePair (okSizes obs k fuel) := by
  intro fuel
  induction fuel with
  | zero => intro k w; simp [waitLoop, okSizes, hasStablePair]
  | succ fuel ih =>
    intro k w
    rw [waitLoop, okSizes]
    cases hobs : obs k with
    | ok n =>
      dsimp only
      have hc : ¬ ((n : Int) = -1 ∧ 0 < n) := by omega
      rw [if_neg hc]
      exact waitLoop_fst_nat obs fuel (k+1) n _
    | err =>
      dsimp only
      exact ih (k+1) w

lemma waitQ_succ (s : Nat) : min (waitQ s * (3/2)) 2 = waitQ (s+1) := by
  unfold waitQ
  rcases le_total ((1/10 : ℚ) * (3/2) ^ s) 2 with h | h
  · rw [min_eq_left h]
    have he : (1/10 : ℚ) * (3/2) ^ s * (3/2) = (1/10) * (3/2) ^ (s+1) := by
      rw [pow_succ]; ring
    rw [he]
  · rw [min_eq_right h]
    have hpos : (0:ℚ) < (1/10 : ℚ) * (3/2) ^ s := by positivity
    have h2 : (2:ℚ) ≤ (1/10 : ℚ) * (3/2) ^ (s+1) := by
      rw [pow_succ]
      nlinarith
    rw [min_eq_right h2, min_eq_right (by norm_num : (2:ℚ) ≤ 2*(3/2))]

lemma waitLoop_sleep_elem (obs : Nat → SizeObs) :
    ∀ fuel k (last : Int) (s i : Nat) (q : ℚ),
      (waitLoop obs k fuel last (waitQ s)).2.get? i = some q →
      q = waitQ (s + okCount obs k i) := by
  intro fuel
  induction fuel with
  | zero => intro k last s i q h; simp [waitLoop] at h
  | succ fuel ih =>
    intro k last s i q h
    rw [waitLoop] at h
    cases hobs : obs k with
    | ok n =>
      rw [hobs] at h
      dsimp only at h
      by_cases hc : (n : Int) = last ∧ 0 < n
      · rw [if_pos hc] at h
        simp at h
      · rw [if_neg hc] at h
        rw [waitQ_succ] at h
        cases i with
        | zero =>
          simp at h
          rw [← h]
          simp [okCount]
        | succ i =>
          simp only [List.get?_cons_succ] at h
          have := ih (k+1) n (s+1) i q h
          rw [this]
          congr 1
          simp [okCount, hobs]
          omega
    | err =>
      rw [hobs] at h
      dsimp only at h
      cases i with
      | zero =>
        simp at h
        rw [← h]
        simp [okCount]
      | succ i =>
        simp only [List.get?_cons_succ] at h
        have := ih (k+1) last s i q h
        rw [this]
        congr 1
        simp [okCount, hobs]

lemma readLoop_skip_perms (att : Nat → ReadOutcome) :
    ∀ j k fuel, j < fuel → (∀ i, i < j → (att (k+i)).isPerm = true) →
      readLoop att k fuel =
        ((readLoop att (k+j) (fuel - j)).1,
          (List.range j).map (fun i => (((k+i : Nat) : ℚ) + 1) / 2)
            ++ (readLoop att (k+j) (fuel - j)).2) := by
  intro j
  induction j with
  | zero => intro k fuel h1 h2; simp
  | succ j ih =>
    intro k fuel h1 h2
    obtain ⟨fuel', rfl⟩ : ∃ m, fuel = m + 1 := ⟨fuel - 1, by omega⟩
    have hp := h2 0 (by omega)
    rw [readLoop]
    cases hak : att (k+0) with
    | ok s => rw [hak] at hp; simp [ReadOutcome.isPerm] at hp
    | otherErr e => rw [hak] at hp; simp [ReadOutcome.isPerm] at hp
    | permDenied e =>
      simp only [Nat.add_zero] at hak
      rw [hak]
      dsimp only
      have hf : ¬ (fuel' = 0) := by omega
      rw [if_neg hf]
      have ih' := ih (k+1) fuel' (by omega)
        (fun i hi => by
          have := h2 (i+1) (by omega)
          rwa [show k + (i+1) = k + 1 + i by omega] at this)
      rw [ih']
      have hk : k + 1 + j = k + (j + 1) := by omega
      have hfu : fuel' - j = fuel' + 1 - (j + 1) := by omega
      rw [hk, hfu]
      refine Prod.ext rfl ?_
      dsimp only
      rw [List.range_succ_eq_map]
      simp only [List.map_cons, List.map_map]
      have hhead : ((k : ℚ) + 1) / 2 = (((k + 0 : Nat) : ℚ) + 1) / 2 := by norm_num
      have htail : List.map (fun i => (((k + 1 + i : Nat) : ℚ) + 1) / 2) (List.range j)
          = List.map ((fun i => (((k + i : Nat) : ℚ) + 1) / 2) ∘ Nat.succ) (List.range j) := by
        refine List.map_congr_left (fun a _ => ?_)
        simp only [Function.comp_apply]
        push_cast
        ring
      rw [hhead, htail]
      exact (List.cons_append _ _ _).symm

lemma matcher_eq_find (skills : List (String × SkillConfig)) (filename : String) :
    _match_file_to_skill skills filename
      = (List.find? (skillMatches filename) skills).map toMatched := by
  induction skills with
  | nil => rfl
  | cons entry rest ih =>
    obtain ⟨n, sc⟩ := entry
    simp only [_match_file_to_skill]
    by_cases hm : skillMatches filename (n, sc) = true
    · rw [List.find?_cons_of_pos _ hm]
      unfold skillMatches at hm
      cases hp : sc.pattern with
      | none => rw [hp] at hm; simp at hm
      | some pat =>
        rw [hp] at hm
        simp only [Bool.and_eq_true, decide_eq_true_eq] at hm
        simp [hm.1, hm.2, toMatched, hp]
    · rw [List.find?_cons_of_neg _ hm]
      unfold skillMatches at hm
      cases hp : sc.pattern with
      | none => exact ih
      | some pat =>
        rw [hp] at hm
        simp only [Bool.and_eq_true, decide_eq_true_eq, not_and] at hm
        by_cases h1 : pat = ""
        · simp [h1, ih]
        · have h2 := hm h1
          simp [h1, h2, ih]

lemma archive_file_isOk (a : AEnv) (cfg : Config) (p : String) :
    ∃ l, _archive_file a cfg p = .ok l := by
  unfold _archive_file archiveBody
  cases a.makedirs with
  | error e => exact ⟨.failureLogged e, rfl⟩
  | ok u =>
    dsimp only
    by_cases hp : normpath (joinPath (a.expanduser (cfg.archive_folder.getD "~/Downloads"))
        (basename p)) = normpath p
    · rw [if_pos hp]
      exact ⟨.stayedInPlace, rfl⟩
    · rw [if_neg hp]
      cases a.rename with
      | error e => exact ⟨.failureLogged e, rfl⟩
      | ok v => exact ⟨_, rfl⟩

lemma process_file_skip (cfg : Config) (st : HState) (env : PEnv) (p : String) (m : Nat)
    (hm : env.getmtime = .ok m) (hmem : (p, m) ∈ st.processed) :
    process_file cfg st env p = ⟨st, .skippedDuplicate, none⟩ := by
  unfold process_file
  rw [hm]
  dsimp only
  rw [if_pos hmem]

lemma process_file_processed_char (cfg : Config) (st : HState) (env : PEnv) (p : String) :
    ((process_file cfg st env p).insert.isSome = true →
       ∃ m, env.getmtime = .ok m ∧
         (process_file cfg st env p).state.processed = (p, m) :: st.processed) ∧
    ((process_file cfg st env p).insert = none →
       (process_file cfg st env p).state.processed = st.processed) := by
  unfold process_file
  cases hm : env.getmtime with
  | error e => simp
  | ok m =>
    dsimp only
    by_cases hmem : (p, m) ∈ st.processed
    · rw [if_pos hmem]; simp
    · rw [if_neg hmem]
      cases hms : _match_file_to_skill cfg.skills (basename p) with
      | none => simp
      | some sk =>
        dsimp only
        cases hr : (read_file_with_retry env.readAtt).1 with
        | raised e => simp
        | noContent => simp
        | content c =>
          dsimp only
          by_cases hc : c = ""
          · rw [if_pos hc]; simp
          · rw [if_neg hc]
            cases hi : (if st.serviceInit then Except.ok () else env.initService) with
            | error e => simp
            | ok u =>
              dsimp only
              cases ha : _append_to_doc env.g env.timestamp sk.doc_id c sk.name with
              | error e => simp
              | ok req =>
                dsimp only
                cases har : _archive_file env.arch cfg p with
                | ok l => exact ⟨fun _ => ⟨m, rfl, rfl⟩, by simp⟩
                | error e => exact ⟨fun _ => ⟨m, rfl, rfl⟩, by simp⟩

/-! ### Claim theorems -/

/-- C1: once `process_file` has completed an append for the identity
(path, modificationTimestamp) — witnessed by the issued `insertText`
request — that identity is in `last_processed`; and any later invocation
for the same path and modification time (with the set only having grown in
between, as it is never shrunk) returns at the duplicate guard with no
append, no state change, and outcome `skippedDuplicate`. -/
theorem at_most_once_append_per_identity
    (cfg cfg2 : Config) (st st2 : HState) (env1 env2 : PEnv) (p : String) (m : Nat)
    (h1 : env1.getmtime = .ok m)
    (happ : (process_file cfg st env1 p).insert.isSome = true)
    (hsub : ∀ x, x ∈ (process_file cfg st env1 p).state.processed → x ∈ st2.processed)
    (h2 : env2.getmtime = .ok m) :
    process_file cfg2 st2 env2 p = ⟨st2, .skippedDuplicate, none⟩ := by
  obtain ⟨m', hm', hproc⟩ := (process_file_processed_char cfg st env1 p).1 happ
  rw [h1] at hm'
  have hmm : m = m' := by
    injection hm'
  subst hmm
  have hmem : (p, m) ∈ (process_file cfg st env1 p).state.processed := by
    rw [hproc]; exact List.mem_cons_self _ _
  exact process_file_skip cfg2 st2 env2 p m h2 (hsub _ hmem)

set_option maxRecDepth 10000 in
/-- C1 witness: a concrete all-success run appends, and immediately
re-running `process_file` on the same path and mtime is a no-op. -/
theorem at_most_once_append_per_identity_witness :
    process_file cfgNotes (process_file cfgNotes ⟨[], false⟩ envAllOk "/w/notes-1.md").state
        envAllOk "/w/notes-1.md"
      = ⟨(process_file cfgNotes ⟨[], false⟩ envAllOk "/w/notes-1.md").state,
          .skippedDuplicate, none⟩ :=
  at_most_once_append_per_identity cfgNotes cfgNotes ⟨[], false⟩ _ envAllOk envAllOk
    "/w/notes-1.md" 5 rfl (by decide) (fun x h => h) rfl

/-- C2: with the default budget of 10 attempts, `_wait_for_file_ready`
returns `True` iff the file existed at entry and, among the (at most 10)
size observations made within the budget, some two consecutive successful
observations are equal and strictly positive.  In particular a missing
file, a never-stabilizing file, and a file whose stable size is 0 are all
reported not ready. -/
theorem readiness_iff_two_consecutive_stable (exists0 : Bool) (obs : Nat → SizeObs) :
    wait_for_file_ready exists0 obs 10
      = (exists0 && hasStablePair (okSizes obs 0 10)) := by
  cases exists0 with
  | false => rfl
  | true =>
    simp only [wait_for_file_ready, wait_for_file_ready_run, if_pos, Bool.true_and]
    exact waitLoop_fst_init obs 10 0 _

set_option maxRecDepth 10000 in
/-- C3 (code bug): on a successful pipeline run for a skill configured with
key name "notes" and display name (`skill_name`) "Weekly Notes", the
matcher does compute the display name "Weekly Notes", and the insert is
issued at (endIndex 10) − 1 = 9 with the documented envelope — but the
header names the *key* "notes" (the code passes `skill_config['name']` to
`_append_to_doc`), and that text differs from the claimed text built from
the display name. -/
theorem append_header_uses_key_name_not_display_name :
    (_match_file_to_skill cfgNotes.skills "notes-1.md").map MatchedSkill.skill_name
        = some "Weekly Notes" ∧
    (process_file cfgNotes ⟨[], false⟩ envAllOk "/w/notes-1.md").insert
        = some ⟨"D1", 10 - 1, fullContentStr "Hello" "notes" "2026-01-01 00:00:00"⟩ ∧
    fullContentStr "Hello" "notes" "2026-01-01 00:00:00"
        ≠ fullContentStr "Hello" "Weekly Notes" "2026-01-01 00:00:00" := by
  refine ⟨by decide, by decide, by decide⟩

/-- C4 counterexample: a failure in the `os.path.getmtime` call — part of
the per-file pipeline, but performed *before* the `try` block — propagates
out of `process_file` instead of being caught. -/
theorem mtime_failure_escapes_process_file :
    (process_file cfgNotes ⟨[], false⟩ envMtimeFails "/w/notes-1.md").outcome = .raised 7 ∧
    ((process_file cfgNotes ⟨[], false⟩ envMtimeFails "/w/notes-1.md").outcome).isRaised
      = true := by
  exact ⟨rfl, rfl⟩

/-- C4 amended: when the modification-time lookup succeeds, every failure
in the rest of the per-file pipeline (matching, reading, service
initialization, appending, archiving) is caught by `process_file`'s `try`
and never propagates. -/
theorem per_file_failures_inside_try_caught
    (cfg : Config) (st : HState) (env : PEnv) (p : String) (m : Nat)
    (hm : env.getmtime = .ok m) :
    (process_file cfg st env p).outcome.isRaised = false := by
  unfold process_file
  rw [hm]
  dsimp only
  by_cases hmem : (p, m) ∈ st.processed
  · rw [if_pos hmem]; rfl
  · rw [if_neg hmem]
    cases hms : _match_file_to_skill cfg.skills (basename p) with
    | none => rfl
    | some sk =>
      dsimp only
      cases hr : (read_file_with_retry env.readAtt).1 with
      | raised e => rfl
      | noContent => rfl
      | content c =>
        dsimp only
        by_cases hc : c = ""
        · rw [if_pos hc]; rfl
        · rw [if_neg hc]
          cases hi : (if st.serviceInit then Except.ok () else env.initService) with
          | error e => rfl
          | ok u =>
            dsimp only
            cases ha : _append_to_doc env.g env.timestamp sk.doc_id c sk.name with
            | error e => rfl
            | ok req =>
              dsimp only
              cases har : _archive_file env.arch cfg p with
              | ok l => rfl
              | error e => rfl

set_option maxRecDepth 10000 in
/-- C4 witness. -/
theorem per_file_failures_inside_try_caught_witness :
    (process_file cfgNotes ⟨[], false⟩ envAllOk "/w/notes-1.md").outcome.isRaised = false :=
  per_file_failures_inside_try_caught cfgNotes ⟨[], false⟩ envAllOk "/w/notes-1.md" 5 rfl

/-- C5: the matcher returns exactly the first configured skill (in
iteration order) whose truthy glob pattern matches the filename, and
`none` otherwise; `"report.txt"` matches `"report*.txt"` but not
`"summary*.txt"`; and a `none` result makes `process_file` return the
logged-and-ignored `noMatch` outcome (no error, no state change). -/
theorem matcher_first_glob_match :
    (∀ skills filename, _match_file_to_skill skills filename
        = (List.find? (skillMatches filename) skills).map toMatched) ∧
    fnmatch "report.txt" "report*.txt" = true ∧
    fnmatch "report.txt" "summary*.txt" = false ∧
    (∀ cfg st env p m, env.getmtime = Except.ok m → (p, m) ∉ st.processed →
       _match_file_to_skill cfg.skills (basename p) = none →
       process_file cfg st env p = ⟨st, .noMatch, none⟩) := by
  refine ⟨matcher_eq_find, by decide, by decide, ?_⟩
  intro cfg st env p m hm hmem hnone
  unfold process_file
  rw [hm]
  dsimp only
  rw [if_neg hmem, hnone]

set_option maxRecDepth 10000 in
/-- C5 witness: a filename no configured pattern matches is ignored. -/
theorem matcher_first_glob_match_witness :
    process_file cfgNotes ⟨[], false⟩ envAllOk "/w/other.bin"
      = ⟨⟨[], false⟩, .noMatch, none⟩ :=
  matcher_first_glob_match.2.2.2 cfgNotes ⟨[], false⟩ envAllOk "/w/other.bin" 5 rfl
    (by simp) (by decide)

/-- C6: reads.  If all five attempts raise `PermissionError`, the loop
sleeps 0.5·1, 0.5·2, 0.5·3, 0.5·4 seconds between attempts and re-raises
the fifth error.  If attempts before `j` raise `PermissionError` and
attempt `j` raises any other error, that error propagates immediately (no
further attempt, no further sleep).  If attempt `j` succeeds, the content
is returned. -/
theorem read_retry_policy (att : Nat → ReadOutcome) :
    ((∀ k, k < 5 → (att k).isPerm = true) →
       ∀ e, att 4 = .permDenied e →
         read_file_with_retry att = (.raised e, [1/2, 1, 3/2, 2])) ∧
    (∀ j e, j < 5 → (∀ i, i < j → (att i).isPerm = true) → att j = .otherErr e →
       read_file_with_retry att
         = (.raised e, (List.range j).map (fun i => (((i : Nat) : ℚ) + 1) / 2))) ∧
    (∀ j s, j < 5 → (∀ i, i < j → (att i).isPerm = true) → att j = .ok s →
       read_file_with_retry att
         = (.content s, (List.range j).map (fun i => (((i : Nat) : ℚ) + 1) / 2))) := by
  have hskip : ∀ j, j < 5 → (∀ i, i < j → (att i).isPerm = true) →
      read_file_with_retry att =
        ((readLoop att j (5 - j)).1,
          (List.range j).map (fun i => (((i : Nat) : ℚ) + 1) / 2)
            ++ (readLoop att j (5 - j)).2) := by
    intro j hj hperm
    have := readLoop_skip_perms att j 0 5 hj (fun i hi => by simpa using hperm i hi)
    simpa [read_file_with_retry] using this
  refine ⟨?_, ?_, ?_⟩
  · intro hall e he
    have h4 := hskip 4 (by omega) (fun i hi => hall i (by omega))
    rw [h4]
    rw [show (5 : Nat) - 4 = 0 + 1 from rfl, readLoop, he]
    simp only [if_pos rfl]
    refine Prod.ext rfl ?_
    simp [List.range_succ]
    norm_num
  · intro j e hj hperm he
    have hs := hskip j hj hperm
    rw [hs]
    obtain ⟨m, hm⟩ : ∃ m, 5 - j = m + 1 := ⟨4 - j, by omega⟩
    rw [hm, readLoop, he]
    simp
  · intro j s hj hperm hs'
    have hs := hskip j hj hperm
    rw [hs]
    obtain ⟨m, hm⟩ : ∃ m, 5 - j = m + 1 := ⟨4 - j, by omega⟩
    rw [hm, readLoop, hs']
    simp

/-- C6 witness: one `PermissionError`, then success on the second attempt,
with a single 0.5 s sleep in between. -/
theorem read_retry_policy_witness :
    read_file_with_retry
        (fun k => if k = 0 then ReadOutcome.permDenied 3 else ReadOutcome.ok "x")
      = (.content "x", [1/2]) := by
  have h := (read_retry_policy
      (fun k => if k = 0 then ReadOutcome.permDenied 3 else ReadOutcome.ok "x")).2.2
      1 "x" (by omega)
      (fun i hi => by
        have hi0 : i = 0 := by omega
        subst hi0
        rfl)
      rfl
  rw [h]
  simp [List.range_succ]

/-- C7 counterexample: with every size read failing, the readiness loop's
second sleep (index 1 of the trace) is still 0.1 s — the backoff is *not*
multiplied on retries consumed by transient size-read errors — whereas the
claimed formula `min(0.1 · 1.5^k, 2.0)` predicts 0.15 s. -/
theorem backoff_not_multiplied_on_error_retries :
    (wait_for_file_ready_run true errObs 10).2.get? 1 = some (1/10) ∧
    (1/10 : ℚ) ≠ min ((1/10 : ℚ) * (3/2) ^ (1 : Nat)) 2 := by
  constructor
  · simp [wait_for_file_ready_run, errObs, waitLoop]
  · norm_num

/-- C7 amended: the sleep before the k-th retry equals
`min(0.1 · 1.5^s, 2.0)` where `s` is the number of *successful-size-read*
retries before it; retries consumed by transient errors sleep the current
interval without multiplying it. -/
theorem backoff_multiplies_only_on_successful_reads
    (obs : Nat → SizeObs) (i : Nat) (q : ℚ)
    (h : (wait_for_file_ready_run true obs 10).2.get? i = some q) :
    q = min ((1/10 : ℚ) * (3/2) ^ okCount obs 0 i) 2 := by
  rw [wait_for_file_ready_run, if_pos] at h
  · have h0 : (1/10 : ℚ) = waitQ 0 := by unfold waitQ; norm_num
    rw [h0] at h
    have := waitLoop_sleep_elem obs 10 0 (-1) 0 i q h
    rw [this]
    unfold waitQ
    norm_num
  · trivial

/-- C7 witness. -/
theorem backoff_multiplies_only_on_successful_reads_witness :
    (1/10 : ℚ) = min ((1/10 : ℚ) * (3/2) ^ okCount errObs 0 1) 2 :=
  backoff_multiplies_only_on_successful_reads errObs 1 (1/10)
    (by simp [wait_for_file_ready_run, errObs, waitLoop])

/-- C8: `_archive_file` never propagates a failure (its whole body is
inside `try: … except Exception:`), and when the resolved archive path
normalizes to the same location as the source path no move is performed
(the outcome is never `movedTo`) and still nothing is raised. -/
theorem archive_never_propagates_and_selfmove_noop
    (a : AEnv) (cfg : Config) (p : String) :
    (∃ l, _archive_file a cfg p = .ok l) ∧
    (normpath (joinPath (a.expanduser (cfg.archive_folder.getD "~/Downloads"))
          (basename p)) = normpath p →
       ∃ l, _archive_file a cfg p = .ok l ∧ ∀ d, l ≠ .movedTo d) := by
  constructor
  · exact archive_file_isOk a cfg p
  · intro hp
    unfold _archive_file archiveBody
    cases a.makedirs with
    | error e => exact ⟨.failureLogged e, rfl, by simp⟩
    | ok u =>
      dsimp only
      rw [if_pos hp]
      exact ⟨.stayedInPlace, rfl, by simp⟩

/-- C8 witness: archiving `/w/f.txt` with archive folder `/w` is a no-op
that raises nothing. -/
theorem archive_never_propagates_and_selfmove_noop_witness :
    ∃ l, _archive_file aEnvId cfgSelf "/w/f.txt" = .ok l ∧ ∀ d, l ≠ .movedTo d :=
  (archive_never_propagates_and_selfmove_noop aEnvId cfgSelf "/w/f.txt").2 (by decide)

/-- C9: `last_processed` gains the identity (path, mtime) exactly when the
append succeeds (an `insertText` request was issued successfully): on any
failure before or during the append the set is unchanged, while a
subsequent archive failure (which `_archive_file` swallows, and which the
outer `try` would catch anyway) leaves the identity marked — the first
conjunct holds for *every* archive environment, including failing ones. -/
theorem processed_marker_added_iff_append_succeeds
    (cfg : Config) (st : HState) (env : PEnv) (p : String) :
    ((process_file cfg st env p).insert.isSome = true →
       ∃ m, env.getmtime = .ok m ∧
         (process_file cfg st env p).state.processed = (p, m) :: st.processed) ∧
    ((process_file cfg st env p).insert = none →
       (process_file cfg st env p).state.processed = st.processed) :=
  process_file_processed_char cfg st env p

set_option maxRecDepth 10000 in
/-- C9 witness: in a concrete all-success run the marker is added. -/
theorem processed_marker_added_iff_append_succeeds_witness :
    (process_file cfgNotes ⟨[], false⟩ envAllOk "/w/notes-1.md").state.processed
      = [("/w/notes-1.md", 5)] := by
  obtain ⟨m, hm, hp⟩ :=
    (processed_marker_added_iff_append_succeeds cfgNotes ⟨[], false⟩ envAllOk
      "/w/notes-1.md").1 (by decide)
  have hm5 : (5 : Nat) = m := by
    have hh : Except.ok (ε := Err) 5 = Except.ok m := hm
    injection hh
  rw [hp, ← hm5]

/-- C10: the modification-event prefilter agrees exactly with the matcher:
`_matches_any_pattern` returns `true` iff `_match_file_to_skill` returns a
skill, for every filename and configuration. -/
theorem prefilter_agrees_with_matcher
    (skills : List (String × SkillConfig)) (filename : String) :
    _matches_any_pattern skills filename
      = (_match_file_to_skill skills filename).isSome := by
  induction skills with
  | nil => rfl
  | cons entry rest ih =>
    obtain ⟨n, sc⟩ := entry
    simp only [_matches_any_pattern, _match_file_to_skill]
    cases hp : sc.pattern with
    | none => simpa using ih
    | some pat =>
      by_cases h1 : pat = ""
      · subst h1; simpa using ih
      · by_cases h2 : fnmatch filename pat = true
        · simp [h1, h2]
        · simp [h1, h2, ih]
